import Mathlib

/-!
# Verification of the macaroon-bakery `Service` (bakery/service.go)

This file shallowly embeds the `bakery` package's `service.go` in Lean 4 and
proves properties of it.  Go strings are modelled as `List Char`, byte strings
as `List Nat`.  Code of collaborating packages that is not part of the file
under verification (the `checkers` package, the storage wrapper, the sealed-box
encoder/decoder and the macaroon primitive) is modelled from the specification;
each such definition carries a doc comment starting `Modelled from the spec:`.
Cryptographic sealing is modelled symbolically (a free algebra): a sealed box
is a constructor holding its plaintext and the key it was sealed under, and
decoding succeeds exactly when the matching key is presented.
-/

set_option autoImplicit false

namespace Bakery

/-- Go `string`, modelled as its list of characters. -/
abbrev Str := List Char

/-- Go `[]byte`, modelled as a list of byte values. -/
abbrev Bytes := List Nat

/-- Coercion from a Lean string literal to the `Str` model. -/
def strL (s : String) : Str := s.data

/-! ## Go string helpers (semantics of the `strings` package functions used) -/

/-- `strings.Index(s, c)` for a one-character separator: the index of the first
occurrence of `c`, or `-1` when absent. -/
def goIndex (s : Str) (c : Char) : Int :=
  match s.findIdx? (· = c) with
  | some n => (n : Int)
  | none => -1

/-- Split at the first occurrence of `c`: `none` when `c` does not occur,
otherwise the part before and the part after. -/
def splitAtFirst (c : Char) : Str → Option (Str × Str)
  | [] => none
  | x :: rest =>
    if x = c then some ([], rest)
    else (splitAtFirst c rest).map (fun p => (x :: p.1, p.2))

/-- `strings.Split(s, ",")`: the comma-separated fields of `s`.  Like Go's
`Split` with a non-empty separator, the result is never empty: a string with
`n` commas yields `n + 1` fields. -/
def splitComma : Str → List Str
  | [] => [[]]
  | x :: rest =>
    if x = ',' then [] :: splitComma rest
    else
      match splitComma rest with
      | [] => [[x]]
      | hd :: tl => (x :: hd) :: tl

/-- `strings.SplitN(s, c, 2)` for a one-character separator: at most two
fields, split at the first occurrence of `c`. -/
def goSplitN2 (s : Str) (c : Char) : List Str :=
  match splitAtFirst c s with
  | none => [s]
  | some (a, b) => [a, b]

/-! ## Error model

Go errors as they flow through `service.go`.  `errgo.Notef` wraps an
underlying error under a new message without preserving its cause;
`errgo.Mask` wraps and preserves the cause exactly when the pass predicate
accepts it; `errgo.Cause` returns the stored cause when one was preserved and
the error itself otherwise.  A Go `panic` is modelled as a distinguished error
value so that its (non-)occurrence is observable. -/

inductive GoErr where
  /-- `bakery.ErrNotFound`, returned by storage on a missing key. -/
  | notFound
  /-- `errgo.New` / `errgo.Newf` / `fmt.Errorf`: a fresh error with the given
  message (format arguments are dropped from the model). -/
  | mk (msg : Str)
  /-- `*bakery.VerificationError` with the given `Reason`. -/
  | verification (reason : GoErr)
  /-- `errgo.Notef(underlying, msg)`: wraps without preserving the cause. -/
  | noted (underlying : GoErr) (msg : Str)
  /-- `errgo.Mask(underlying, pass...)`: wraps the underlying error; the flag
  records whether the cause was preserved (the stored cause is always
  `Cause(underlying)`, so only the flag need be kept). -/
  | masked (underlying : GoErr) (causePreserved : Bool)
  /-- A Go `panic` with the given message, modelled as an error value. -/
  | panicked (msg : Str)
deriving DecidableEq, Repr

/-- `errgo.Cause`: the preserved cause when one was recorded, else the error
itself. -/
def errCause : GoErr → GoErr
  | .masked u true => errCause u
  | e => e

/-- `isVerificationError` from service.go: type assertion on
`*VerificationError`. -/
def isVerificationError : GoErr → Bool
  | .verification _ => true
  | _ => false

/-- `errgo.Mask(e, pass)`: a wrapper whose cause is `errCause e` exactly when
the pass predicate accepts that cause. -/
def errgoMask (e : GoErr) (pass : GoErr → Bool) : GoErr :=
  .masked e (pass (errCause e))

/-! ## Keys and caveat ids -/

/-- A third party's public key; only its textual form matters to service.go. -/
structure PublicKey where
  text : Str
deriving DecidableEq, Repr

/-- The service's key pair.  Only the public half is observable in the model:
the private half is implicit in the symbolic decoding rule. -/
structure KeyPair where
  public : PublicKey
deriving DecidableEq, Repr

/-- Modelled from the spec: `PublicKey.UnmarshalText` parses the textual form,
"base64 (standard alphabet, no padding) of 32 bytes" — 43 characters; any
other length fails to decode. -/
def unmarshalPublicKeyText (s : Str) : Except GoErr PublicKey :=
  if s.length = 43 then .ok ⟨s⟩
  else .error (.mk (strL "wrong length for base64 key"))

/-- A macaroon or caveat identifier.  `str` is a plain string id; `box` is the
sealed third-party caveat-id envelope `{root-key, condition}` encrypted to a
public key (§4.2), modelled symbolically. -/
inductive CavId where
  | str (s : Str)
  | box (pk : PublicKey) (rootKey : Bytes) (cond : Str)
deriving DecidableEq, Repr

/-- Modelled from the spec: the box encoder's `encodeCaveatId` seals
`{root-key, condition}` under the third party's public key (the fresh random
nonce is abstracted away). -/
def encodeCaveatId (condition : Str) (rootKey : Bytes) (pk : PublicKey) : CavId :=
  .box pk rootKey condition

/-- Modelled from the spec: the box decoder's `decodeCaveatId` recovers
`{root-key, condition}` when the envelope was sealed to the decoder's public
key, and fails otherwise ("Decoding verifies that the embedded target public
key matches the decoder's public key; mismatch yields a kind-specific
error"). -/
def decodeCaveatId (key : KeyPair) (id : CavId) : Except GoErr (Bytes × Str) :=
  match id with
  | .str _ => .error (.mk (strL "empty caveat id"))
  | .box pk rootKey cond =>
    if pk = key.public then .ok (rootKey, cond)
    else .error (.mk (strL "public key mismatch"))

/-! ## The caveat language (`checkers` package, modelled from the spec) -/

/-- `checkers.Caveat`: a condition together with the location of the party
that must discharge it (empty for first-party caveats). -/
structure Caveat where
  Location : Str
  Condition : Str
deriving DecidableEq, Repr

/-- `checkers.CondDeclared`. -/
def condDeclared : Str := strL "declared"

/-- `checkers.CondNeedDeclared`. -/
def condNeedDeclared : Str := strL "need-declared"

/-- Modelled from the spec: `checkers.ParseCaveat` — "a condition is a UTF-8
string `<cond>` or `<cond> <arg>`, split on the first space"; an empty
condition or one starting with a space is an error, reported as an empty
`cond` (service.go always ignores the error component). -/
def parseCaveat (cav : Str) : Str × Str :=
  match splitAtFirst ' ' cav with
  | none => (cav, [])
  | some (pre, post) => if pre = [] then ([], []) else (pre, post)

/-- Modelled from the spec: `checkers.DeclaredCaveat key value` is the
first-party caveat `declared <key> <value>` (callers in service.go always pass
a non-empty, space-free key). -/
def DeclaredCaveat (key value : Str) : Caveat :=
  { Location := [], Condition := condDeclared ++ [' '] ++ key ++ [' '] ++ value }

/-- A Go map `string → string`, modelled as an association list with unique
keys maintained by `setKey`. -/
abbrev AssocMap := List (Str × Str)

/-- Lookup in an association list (`m[k]` on a Go map). -/
def lookupA : AssocMap → Str → Option Str
  | [], _ => none
  | (k', v) :: rest, k => if k' = k then some v else lookupA rest k

/-- Update `m[k] = v` on a Go map: replace the existing binding or append. -/
def setKey : AssocMap → Str → Str → AssocMap
  | [], k, v => [(k, v)]
  | (k', v') :: rest, k, v =>
    if k' = k then (k, v) :: rest else (k', v') :: setKey rest k v

/-! ## The macaroon primitive (gopkg.in/macaroon.v1, modelled from the spec §4.1)

HMAC is modelled as a free algebra `HVal`: two HMAC values are equal exactly
when they were built by the same sequence of operations, which is the ideal
behaviour of the actual construction. -/

/-- The free algebra of HMAC-chain values.  `derive` is the key derived from a
root key; `hmac` is the tag update for the macaroon id and for first-party
caveats; `hmacV` the tag update `HMAC(tag, vid ‖ cid)` for third-party
caveats; `seal` the verification-id `sealed-encrypt(caveat-root-key)` under
the current tag; `bind` the `bind-for-request` value `HMAC(0³², primary ‖
tag)`. -/
inductive HVal where
  | derive (rootKey : Bytes)
  | hmac (key : HVal) (data : CavId)
  | hmacV (key : HVal) (vid : HVal) (cid : CavId)
  | seal (key : HVal) (rootKey : Bytes)
  | bind (primaryTag tag : HVal)
deriving DecidableEq, Repr

/-- One caveat of a macaroon: a possible verification id (third-party only),
the caveat id, and the discharging location (empty for first-party). -/
structure MacCaveat where
  vid : Option HVal
  cid : CavId
  location : Str
deriving DecidableEq, Repr

/-- Modelled from the spec: `macaroon.Macaroon` — `{location, id, caveats,
tag}` where `tag` is the running HMAC. -/
structure Macaroon where
  location : Str
  id : CavId
  caveats : List MacCaveat
  tag : HVal
deriving DecidableEq, Repr

/-- Modelled from the spec: `macaroon.New(root-key, id, location)` returns a
macaroon with no caveats whose tag is `HMAC(derive(root-key), id)`. -/
def macaroonNew (rootKey : Bytes) (id : CavId) (location : Str) : Macaroon :=
  { location := location, id := id, caveats := [], tag := .hmac (.derive rootKey) id }

/-- Modelled from the spec: `add-first-party-caveat(condition)` appends
`{condition, ∅, ∅}` and updates `tag ← HMAC(tag, condition)`. -/
def Macaroon.addFirstPartyCaveat (m : Macaroon) (condition : Str) : Macaroon :=
  { m with
    caveats := m.caveats ++ [{ vid := none, cid := .str condition, location := [] }]
    tag := .hmac m.tag (.str condition) }

/-- Modelled from the spec: `add-third-party-caveat(caveat-root-key,
caveat-id, location)` seals the caveat root key under the current tag as the
verification id, appends the caveat and updates `tag ← HMAC(tag, vid ‖
caveat-id)`. -/
def Macaroon.addThirdPartyCaveat (m : Macaroon) (rootKey : Bytes) (cid : CavId)
    (location : Str) : Macaroon :=
  let vid := HVal.seal m.tag rootKey
  { m with
    caveats := m.caveats ++ [{ vid := some vid, cid := cid, location := location }]
    tag := .hmacV m.tag vid cid }

/-- `bakery.FirstPartyChecker`: checks one first-party caveat condition. -/
abbrev FirstPartyChecker := Str → Except GoErr Unit

/-- Modelled from the spec: the caveat walk of `macaroon.Verify` (§4.1).
Walks the caveat list threading the running HMAC key: a first-party caveat
must pass the checker and contributes `HMAC(k, condition)`; a third-party
caveat must have a discharge whose id matches, whose verification id unseals
under the current key, and which recursively verifies against the bound tag.
`fuel` bounds the recursion depth, standing for the spec's required depth cap
on discharge recursion. -/
def verifyCavs (check : FirstPartyChecker) (discharges : List Macaroon)
    (primaryTag : HVal) : Nat → List MacCaveat → HVal → Except GoErr HVal
  | 0, _, _ => .error (.mk (strL "too many levels of discharge recursion"))
  | _ + 1, [], k => .ok k
  | fuel + 1, cav :: rest, k =>
    match cav.vid with
    | none =>
      match cav.cid with
      | .str cond =>
        match check cond with
        | .error e => .error e
        | .ok _ => verifyCavs check discharges primaryTag fuel rest (.hmac k (.str cond))
      | .box _ _ _ => .error (.mk (strL "first party caveat with opaque id"))
    | some vid =>
      match discharges.find? (fun d => decide (d.id = cav.cid)) with
      | none => .error (.mk (strL "cannot find discharge macaroon for caveat"))
      | some d =>
        match vid with
        | .seal kSeal dRootKey =>
          if kSeal = k then
            match verifyCavs check discharges primaryTag fuel d.caveats
                (.hmac (.derive dRootKey) d.id) with
            | .error e => .error e
            | .ok kd =>
              if HVal.bind primaryTag kd = d.tag then
                verifyCavs check discharges primaryTag fuel rest (.hmacV k vid cav.cid)
              else .error (.mk (strL "signature mismatch after caveat verification"))
          else .error (.mk (strL "failed to decrypt caveat verification id"))
        | _ => .error (.mk (strL "invalid caveat verification id"))

/-- Modelled from the spec: `macaroon.Verify(root-key, checker, discharges)`
(§4.1): derive the key chain from the root key, walk the caveats, and finally
require the reconstructed tag to equal the stored tag. -/
def Macaroon.Verify (m : Macaroon) (rootKey : Bytes) (check : FirstPartyChecker)
    (discharges : List Macaroon) : Except GoErr Unit :=
  let fuel := (m :: discharges).foldl (fun n d => n + d.caveats.length + 1) 1
  match verifyCavs check discharges m.tag fuel m.caveats (.hmac (.derive rootKey) m.id) with
  | .error e => .error e
  | .ok k =>
    if k = m.tag then .ok ()
    else .error (.mk (strL "signature mismatch after caveat verification"))

/-! ## Declared-attribute inference and checker composition
(`checkers` package, modelled from the spec §4.3) -/

/-- `checkers.Checker` as used by `CheckAnyM`: classifies a condition. -/
abbrev Checker := Str → Except GoErr Unit

/-- Modelled from the spec: one step of declared-attribute inference — "for
each name, the inferred value is that value if all occurrences agree; if two
occurrences disagree, the inferred value is the empty string". -/
def inferStep (acc : AssocMap) (cond : Str) : AssocMap :=
  let p := parseCaveat cond
  if p.1 = condDeclared then
    match goSplitN2 p.2 ' ' with
    | [name, value] =>
      match lookupA acc name with
      | none => setKey acc name value
      | some v => if v = value then acc else setKey acc name []
    | _ => acc
  else acc

/-- Modelled from the spec: `checkers.InferDeclared` — "given a macaroon
slice, scan all first-party caveats for `declared <name> <value>`" and infer a
value for each name. -/
def InferDeclared (ms : List Macaroon) : AssocMap :=
  let conds := ms.flatMap fun m =>
    m.caveats.filterMap fun cav =>
      if cav.location = [] then
        match cav.cid with
        | .str s => some s
        | _ => none
      else none
  conds.foldl inferStep []

/-- Modelled from the spec: `checkers.New(declared, checker)` — the
first-party checker used by `CheckAnyM`: `declared <name> <value>` conditions
are checked against the declared map; every other condition falls through to
the supplied checker (which stands for the composition with the standard
checkers, whose clock and network conditions are environmental). -/
def checkersNew (declared : AssocMap) (checker : Checker) : FirstPartyChecker :=
  fun cond =>
    let p := parseCaveat cond
    if p.1 = condDeclared then
      match goSplitN2 p.2 ' ' with
      | [name, value] =>
        match lookupA declared name with
        | some v => if v = value then .ok () else .error (.mk (strL "declared value mismatch"))
        | none => .error (.mk (strL "attribute not declared"))
      | _ => .error (.mk (strL "declared caveat has no value"))
    else checker cond

/-! ## Storage and the public-key locator (modelled from the spec §4.5, §4.4) -/

/-- Modelled from the spec: a storage record, `{root-key, [reserved]}`. -/
structure StorageItem where
  RootKey : Bytes
deriving DecidableEq, Repr

/-- A store's `get`, the only storage operation `Check` uses: modelled from
the spec as `get(id) → record | not-found` (other failures are possible and
surface as other errors). -/
abbrev StoreGet := CavId → Except GoErr StorageItem

/-- A public-key locator: `public-key-for-location(location) → PublicKey |
error`. -/
abbrev Locator := Str → Except GoErr PublicKey

/-- Modelled from the spec: `bakery.PublicKeyLocatorMap` — an in-memory map
locator; with no entries it is "an empty locator that fails all lookups". -/
def PublicKeyLocatorMap (m : List (Str × PublicKey)) : Locator :=
  fun loc =>
    match m.find? (fun p => decide (p.1 = loc)) with
    | some p => .ok p.2
    | none => .error .notFound

/-! ## The Service (bakery/service.go) -/

/-- `bakery.Service` (service.go).  The `encoder` field of the Go struct is
determined by `key` and is represented by `key` alone. -/
structure Service where
  location : Str
  store : Option StoreGet
  key : KeyPair
  locator : Locator

/-- `bakery.NewServiceParams` (service.go). -/
structure NewServiceParams where
  Location : Str
  Store : Option StoreGet
  Key : Option KeyPair
  Locator : Option Locator

/-- `bakery.NewService` (service.go).  The random key pair produced by
`GenerateKey` when `p.Key` is nil is supplied as the `genKey` argument; the
only error path of the Go function is a failure of that key generation, so the
model is total. -/
def NewService (p : NewServiceParams) (genKey : KeyPair) : Service :=
  { location := p.Location
    store := p.Store
    key := p.Key.getD genKey
    locator := p.Locator.getD (PublicKeyLocatorMap []) }

/-- `Service.CheckWithKey` (service.go): verify `ms[0]` against the given root
key with `ms[1:]` as discharges, wrapping any failure as a
`VerificationError`. -/
def Service.CheckWithKey (_svc : Service) (ms : List Macaroon) (rootKey : Bytes)
    (checker : FirstPartyChecker) : Except GoErr Unit :=
  match ms with
  | [] => .error (.verification (.mk (strL "no macaroons in slice")))
  | m0 :: rest =>
    match m0.Verify rootKey checker rest with
    | .error e => .error (.verification e)
    | .ok _ => .ok ()

/-- `Service.Check` (service.go): empty-slice check, nil-store panic, root-key
fetch with the not-found rewrite, then `CheckWithKey`. -/
def Service.Check (svc : Service) (ms : List Macaroon) (checker : FirstPartyChecker) :
    Except GoErr Unit :=
  match ms with
  | [] => .error (.verification (.mk (strL "no macaroons in slice")))
  | m0 :: _ =>
    match svc.store with
    | none => .error (.panicked (strL "bakery: Store is not specified, use CheckWithKey or create Service with a store"))
    | some get =>
      match get m0.id with
      | .error e =>
        if errCause e = .notFound then
          .error (.verification (.mk (strL "macaroon not found in storage")))
        else .error (.noted e (strL "cannot get macaroon"))
      | .ok item => svc.CheckWithKey ms item.RootKey checker

/-- Go map overlay `for key, val := range assert { declared[key] = val }` from
the body of `CheckAnyM` (service.go). -/
def overlay (declared assert : AssocMap) : AssocMap :=
  assert.foldl (fun acc p => setKey acc p.1 p.2) declared

/-- The loop of `Service.CheckAnyM` (service.go), threading the `err` variable
that survives the loop; after the loop the last error is returned through
`errgo.Mask(err, isVerificationError)`. -/
def checkAnyLoop (svc : Service) (assert : AssocMap) (checker : Checker) :
    List (List Macaroon) → GoErr → Except GoErr (AssocMap × List Macaroon)
  | [], lastErr => .error (errgoMask lastErr isVerificationError)
  | ms :: rest, _ =>
    let declared := overlay (InferDeclared ms) assert
    match svc.Check ms (checkersNew declared checker) with
    | .ok _ => .ok (declared, ms)
    | .error e => checkAnyLoop svc assert checker rest e

/-- `Service.CheckAnyM` (service.go).  The initial value of the loop's `err`
variable is Go's nil error, modelled as `.mk []`; it is never returned because
the loop body runs at least once. -/
def Service.CheckAnyM (svc : Service) (mss : List (List Macaroon)) (assert : AssocMap)
    (checker : Checker) : Except GoErr (AssocMap × List Macaroon) :=
  match mss with
  | [] => .error (.verification (.mk (strL "no macaroons")))
  | _ :: _ => checkAnyLoop svc assert checker mss (.mk [])

/-- `Service.CheckAny` (service.go): `CheckAnyM` with the successful slice
dropped from the result. -/
def Service.CheckAny (svc : Service) (mss : List (List Macaroon)) (assert : AssocMap)
    (checker : Checker) : Except GoErr AssocMap :=
  (svc.CheckAnyM mss assert checker).map (·.1)

/-- `Check`ing one slice exactly as an iteration of `CheckAnyM`'s loop does:
infer declared attributes, overlay `assert`, and check with the composed
checker. -/
def attemptSlice (svc : Service) (assert : AssocMap) (checker : Checker)
    (ms : List Macaroon) : Except GoErr Unit :=
  svc.Check ms (checkersNew (overlay (InferDeclared ms) assert) checker)

/-- `bakery.LocalThirdPartyCaveat` (service.go). -/
def LocalThirdPartyCaveat (key : PublicKey) : Caveat :=
  { Location := strL "local " ++ key.text, Condition := [] }

/-- `Service.AddCaveat` (service.go).  The 24 random bytes drawn by
`randomBytes` for the caveat root key are supplied as the `rng` argument (the
Go error path for RNG exhaustion is environmental and not modelled); the
returned macaroon is the updated one, so an error leaves the macaroon
unchanged. -/
def Service.AddCaveat (svc : Service) (rng : Bytes) (m : Macaroon) (cav : Caveat) :
    Except GoErr Macaroon :=
  if cav.Location = [] then .ok (m.addFirstPartyCaveat cav.Condition)
  else if (strL "local ").isPrefixOf cav.Location then
    match unmarshalPublicKeyText (cav.Location.drop (strL "local ").length) with
    | .error e => .error (.noted e (strL "cannot unmarshal client's public key in local third-party caveat"))
    | .ok key =>
      if cav.Condition ≠ [] then
        .error (.mk (strL "cannot specify caveat condition in local third-party caveat"))
      else
        .ok (m.addThirdPartyCaveat rng (encodeCaveatId (strL "true") rng key) (strL "local"))
  else
    match svc.locator cav.Location with
    | .error e => .error (.noted e (strL "cannot find public key for location"))
    | .ok pk =>
      .ok (m.addThirdPartyCaveat rng (encodeCaveatId cav.Condition rng pk) cav.Location)

/-! ## Discharging (service.go) -/

/-- `bakery.ThirdPartyChecker`: checks a third-party caveat condition, given
the still-encoded caveat id, returning extra caveats for the discharge. -/
abbrev ThirdPartyChecker := CavId → Str → Except GoErr (List Caveat)

/-- The declared-collection loop of `checkNeedDeclared` (service.go): walk the
checker's caveats collecting the names declared by first-party `declared
<name> <value>` caveats; a first-party `declared` caveat whose argument lacks
a value part is an error; third-party caveats and conditions that do not parse
as `declared` are skipped. -/
def buildDeclared : List Caveat → Except GoErr (List Str)
  | [] => .ok []
  | cav :: rest =>
    if cav.Location ≠ [] then buildDeclared rest
    else
      let p := parseCaveat cav.Condition
      if p.1 ≠ condDeclared then buildDeclared rest
      else
        match goSplitN2 p.2 ' ' with
        | [name, _] => (buildDeclared rest).map (fun l => name :: l)
        | _ => .error (.mk (strL "declared caveat has no value"))

/-- `checkNeedDeclared` (service.go): validate the `need-declared` argument,
run the third-party checker on the inner condition, and append `declared
<name> ""` for every required name the checker did not declare. -/
def checkNeedDeclared (caveatId : CavId) (arg : Str) (checker : ThirdPartyChecker) :
    Except GoErr (List Caveat) :=
  let i := goIndex arg ' '
  if i ≤ 0 then .error (.mk (strL "need-declared caveat requires an argument"))
  else
    let needDeclared := splitComma (arg.take i.toNat)
    if needDeclared.any (· = []) then
      .error (.mk (strL "need-declared caveat with empty required attribute"))
    else if needDeclared.length = 0 then
      .error (.mk (strL "need-declared caveat with no required attributes"))
    else
      match checker caveatId (arg.drop (i.toNat + 1)) with
      | .error e => .error (errgoMask e (fun _ => true))
      | .ok caveats =>
        match buildDeclared caveats with
        | .error e => .error e
        | .ok declared =>
          .ok (caveats ++
            (needDeclared.filter (fun d => !declared.contains d)).map
              (fun d => DeclaredCaveat d []))

/-- The free function `bakery.Discharge` (service.go): decode the caveat id,
dispatch `need-declared` conditions to `checkNeedDeclared` and all others to
the third-party checker, and mint a location-free discharge macaroon on the
recovered root key. -/
def Discharge (key : KeyPair) (checker : ThirdPartyChecker) (id : CavId) :
    Except GoErr (Macaroon × List Caveat) :=
  match decodeCaveatId key id with
  | .error e => .error (.noted e (strL "discharger cannot decode caveat id"))
  | .ok (rootKey, condition) =>
    let p := parseCaveat condition
    let res :=
      if p.1 = condNeedDeclared then checkNeedDeclared id p.2 checker
      else checker id condition
    match res with
    | .error e => .error (errgoMask e (fun _ => true))
    | .ok caveats => .ok (macaroonNew rootKey id [], caveats)

/-- The declared name a single caveat contributes in `checkNeedDeclared`'s
collection loop: the name of a first-party caveat whose condition parses as
`declared <name> <value>` with both parts present, and nothing otherwise. -/
def extractDeclared (cav : Caveat) : Option Str :=
  if cav.Location ≠ [] then none
  else
    let p := parseCaveat cav.Condition
    if p.1 ≠ condDeclared then none
    else
      match goSplitN2 p.2 ' ' with
      | [name, _] => some name
      | _ => none

/-- The names a list of caveats declares, exactly as `checkNeedDeclared`
counts them. -/
def declaredNamesOf (caveats : List Caveat) : List Str :=
  caveats.filterMap extractDeclared

/-- Whether a single caveat is a first-party `declared` caveat lacking a value
part — the condition on which `checkNeedDeclared`'s collection loop errors. -/
def badDeclaredCav (cav : Caveat) : Bool :=
  decide (cav.Location = []) &&
  decide ((parseCaveat cav.Condition).1 = condDeclared) &&
  !decide ((goSplitN2 (parseCaveat cav.Condition).2 ' ').length = 2)

/-- Whether some first-party `declared` caveat lacks a value part. -/
def hasBadDeclared (caveats : List Caveat) : Bool :=
  caveats.any badDeclaredCav

/-- The comma-separated names of a `need-declared` argument, as
`checkNeedDeclared` extracts them: the prefix before the first space, split on
commas. -/
def needDeclaredOf (arg : Str) : List Str :=
  splitComma (arg.take (goIndex arg ' ').toNat)

/-! ## Concrete fixtures used to exercise the definitions -/

/-- A concrete public key. -/
def exPK : PublicKey := ⟨strL "pk"⟩

/-- A concrete key pair. -/
def exKey : KeyPair := ⟨exPK⟩

/-- A concrete root key. -/
def exRootKey : Bytes := [1, 2, 3]

/-- A concrete macaroon id. -/
def exMacId : CavId := .str (strL "m1")

/-- A concrete caveat-free macaroon on `exRootKey`. -/
def exMac : Macaroon := macaroonNew exRootKey exMacId (strL "loc")

/-- A store whose `get` always finds `exRootKey`. -/
def exGet : StoreGet := fun _ => .ok ⟨exRootKey⟩

/-- A concrete service with `exGet` as its store. -/
def exSvc : Service :=
  { location := strL "loc", store := some exGet, key := exKey
    locator := PublicKeyLocatorMap [] }

/-- A first-party checker that accepts everything. -/
def exAccept : FirstPartyChecker := fun _ => .ok ()

/-- A sealed `need-declared` caveat id decodable by `exKey`. -/
def exNeedId : CavId := .box exPK exRootKey (strL "need-declared a,b inner")

/-- A third-party checker declaring only `a`. -/
def exDeclareA : ThirdPartyChecker :=
  fun _ _ => .ok [DeclaredCaveat (strL "a") (strL "v")]

example : splitComma (strL "a,b") = [strL "a", strL "b"] := by decide

example : parseCaveat (strL "need-declared a,b inner") =
    (condNeedDeclared, strL "a,b inner") := by decide

example : checkNeedDeclared exNeedId (strL "a,b inner") exDeclareA =
    .ok [DeclaredCaveat (strL "a") (strL "v"), DeclaredCaveat (strL "b") []] := by rfl

example : Discharge exKey exDeclareA exNeedId =
    .ok (macaroonNew exRootKey exNeedId [],
      [DeclaredCaveat (strL "a") (strL "v"), DeclaredCaveat (strL "b") []]) := by rfl

example : attemptSlice exSvc [] exAccept [exMac] = .ok () := by rfl

example : exSvc.CheckAnyM [[], [exMac]] [] exAccept =
    .ok (overlay (InferDeclared [exMac]) [], [exMac]) := by rfl

/-! ## Helper lemmas -/

/-- Like Go's `strings.Split` with a non-empty separator, `splitComma` never
returns an empty list. -/
theorem splitComma_ne_nil (s : Str) : splitComma s ≠ [] := by
  match s with
  | [] => simp [splitComma]
  | x :: rest =>
    unfold splitComma
    split
    · simp
    · match h : splitComma rest with
      | [] => simp
      | hd :: tl => simp

theorem hasBadDeclared_cons (cav : Caveat) (rest : List Caveat) :
    hasBadDeclared (cav :: rest) = (badDeclaredCav cav || hasBadDeclared rest) :=
  List.any_cons ..

theorem declaredNamesOf_cons (cav : Caveat) (rest : List Caveat) :
    declaredNamesOf (cav :: rest) =
      match extractDeclared cav with
      | none => declaredNamesOf rest
      | some n => n :: declaredNamesOf rest := by
  cases h : extractDeclared cav <;> simp [declaredNamesOf, List.filterMap_cons, h]

/-- `goSplitN2` returns one or two fields. -/
theorem goSplitN2_shape (s : Str) (c : Char) :
    goSplitN2 s c = [s] ∨ ∃ a b, goSplitN2 s c = [a, b] := by
  unfold goSplitN2
  match splitAtFirst c s with
  | none => exact Or.inl rfl
  | some (a, b) => exact Or.inr ⟨a, b, rfl⟩

/-- Characterisation of `buildDeclared`: it errors exactly when some
first-party `declared` caveat lacks a value part, and otherwise collects
exactly the declared names. -/
theorem buildDeclared_eq (cavs : List Caveat) :
    buildDeclared cavs =
      if hasBadDeclared cavs then .error (.mk (strL "declared caveat has no value"))
      else .ok (declaredNamesOf cavs) := by
  induction cavs with
  | nil => rfl
  | cons cav rest ih =>
    rw [hasBadDeclared_cons, declaredNamesOf_cons]
    unfold buildDeclared
    by_cases hloc : cav.Location = []
    · by_cases hcond : (parseCaveat cav.Condition).1 = condDeclared
      · rcases goSplitN2_shape (parseCaveat cav.Condition).2 ' ' with hsp | ⟨a, b, hsp⟩
        · have hbadc : badDeclaredCav cav = true := by
            simp [badDeclaredCav, hloc, hcond, hsp]
          simp only [if_neg (by simp [hloc] : ¬cav.Location ≠ []),
            if_neg (by simp [hcond] : ¬(parseCaveat cav.Condition).1 ≠ condDeclared),
            hsp, hbadc, Bool.true_or]
          simp
        · have hbadc : badDeclaredCav cav = false := by
            simp [badDeclaredCav, hsp]
          have hext : extractDeclared cav = some a := by
            simp [extractDeclared, hloc, hcond, hsp]
          simp only [if_neg (by simp [hloc] : ¬cav.Location ≠ []),
            if_neg (by simp [hcond] : ¬(parseCaveat cav.Condition).1 ≠ condDeclared),
            hsp, hbadc, Bool.false_or, hext, ih]
          by_cases hbad : hasBadDeclared rest = true
          · simp [hbad, Except.map]
          · simp only [Bool.not_eq_true] at hbad
            simp [hbad, Except.map]
      · have hbadc : badDeclaredCav cav = false := by
          simp [badDeclaredCav, hcond]
        have hext : extractDeclared cav = none := by
          simp [extractDeclared, hloc, hcond]
        simp only [if_neg (by simp [hloc] : ¬cav.Location ≠ []),
          if_pos (by simpa using hcond : (parseCaveat cav.Condition).1 ≠ condDeclared),
          hbadc, Bool.false_or, hext, ih]
    · have hbadc : badDeclaredCav cav = false := by
        simp [badDeclaredCav, hloc]
      have hext : extractDeclared cav = none := by
        simp [extractDeclared, hloc]
      simp only [if_pos (by simpa using hloc : cav.Location ≠ []), hbadc, Bool.false_or,
        hext, ih]

/-- What a successful `checkNeedDeclared` returns, given what the third-party
checker returned: the checker's caveats followed by an empty `declared` caveat
for every required name the checker did not declare. -/
theorem checkNeedDeclared_ok (id : CavId) (arg : Str) (checker : ThirdPartyChecker)
    (cavs out : List Caveat)
    (hchk : checker id (arg.drop ((goIndex arg ' ').toNat + 1)) = .ok cavs)
    (h : checkNeedDeclared id arg checker = .ok out) :
    out = cavs ++
      ((needDeclaredOf arg).filter (fun d => !(declaredNamesOf cavs).contains d)).map
        (fun d => DeclaredCaveat d []) := by
  simp only [checkNeedDeclared] at h
  by_cases hi : goIndex arg ' ' ≤ 0
  · rw [if_pos hi] at h
    exact absurd h (by simp)
  · rw [if_neg hi] at h
    by_cases hany : (splitComma (arg.take (goIndex arg ' ').toNat)).any (· = []) = true
    · rw [if_pos hany] at h
      exact absurd h (by simp)
    · rw [if_neg hany, if_neg (by simpa using splitComma_ne_nil _), hchk] at h
      dsimp only at h
      rw [buildDeclared_eq] at h
      by_cases hbad : hasBadDeclared cavs = true
      · rw [if_pos hbad] at h
        exact absurd h (by simp)
      · rw [if_neg hbad] at h
        simp only [Except.ok.injEq] at h
        exact h.symm

/-! ## The claims -/

/-- Claim C8: the error branch of `checkNeedDeclared` guarded by
`len(needDeclared) == 0` is unreachable: the comma-split of any string has at
least one element (so in particular of any argument that passed the preceding
checks), and consequently `checkNeedDeclared` never returns the
"no required attributes" error. -/
theorem claim_C8 :
    (∀ s : Str, 0 < (splitComma s).length)
    ∧ ∀ (id : CavId) (arg : Str) (checker : ThirdPartyChecker),
        checkNeedDeclared id arg checker ≠
          .error (.mk (strL "need-declared caveat with no required attributes")) := by
  have hlen : ∀ s : Str, 0 < (splitComma s).length := by
    intro s
    have := splitComma_ne_nil s
    cases h : splitComma s with
    | nil => exact absurd h this
    | cons a l => simp
  refine ⟨hlen, ?_⟩
  intro id arg checker h
  simp only [checkNeedDeclared] at h
  by_cases hi : goIndex arg ' ' ≤ 0
  · rw [if_pos hi] at h
    simp only [Except.error.injEq, GoErr.mk.injEq] at h
    exact absurd h (by decide)
  · rw [if_neg hi] at h
    by_cases hany : (splitComma (arg.take (goIndex arg ' ').toNat)).any (· = []) = true
    · rw [if_pos hany] at h
      simp only [Except.error.injEq, GoErr.mk.injEq] at h
      exact absurd h (by decide)
    · rw [if_neg hany, if_neg (by simpa using splitComma_ne_nil _)] at h
      cases hchk : checker id (arg.drop ((goIndex arg ' ').toNat + 1)) with
      | error e =>
        rw [hchk] at h
        simp [errgoMask] at h
      | ok cavs =>
        rw [hchk] at h
        dsimp only at h
        rw [buildDeclared_eq] at h
        by_cases hbad : hasBadDeclared cavs = true
        · rw [if_pos hbad] at h
          simp only [Except.error.injEq, GoErr.mk.injEq] at h
          exact absurd h (by decide)
        · rw [if_neg hbad] at h
          simp at h

/-- Claim C9: on the empty macaroon slice, both `Check` and `CheckWithKey`
return a `VerificationError` with reason "no macaroons in slice", and in
particular `Check` does not reach the nil-store panic, because the emptiness
check precedes the nil-store check. -/
theorem claim_C9 (svc : Service) (checker : FirstPartyChecker) (rootKey : Bytes) :
    svc.Check [] checker = .error (.verification (.mk (strL "no macaroons in slice")))
    ∧ svc.CheckWithKey [] rootKey checker =
        .error (.verification (.mk (strL "no macaroons in slice")))
    ∧ ∀ msg, svc.Check [] checker ≠ .error (.panicked msg) := by
  refine ⟨rfl, rfl, ?_⟩
  intro msg h
  simp [Service.Check] at h

/-- Witness for C8 at a concrete input. -/
theorem claim_C8_witness : 0 < (splitComma (strL "a,b")).length :=
  claim_C8.1 (strL "a,b")

/-- A service with no store configured. -/
def exSvcNoStore : Service :=
  { location := strL "loc", store := none, key := exKey
    locator := PublicKeyLocatorMap [] }

/-- Witness for C9 at concrete inputs: the empty slice yields the
verification error even on a service with no store. -/
theorem claim_C9_witness :
    exSvcNoStore.Check [] exAccept =
        .error (.verification (.mk (strL "no macaroons in slice")))
    ∧ exSvcNoStore.CheckWithKey [] exRootKey exAccept =
        .error (.verification (.mk (strL "no macaroons in slice"))) :=
  ⟨(claim_C9 exSvcNoStore exAccept exRootKey).1,
   (claim_C9 exSvcNoStore exAccept exRootKey).2.1⟩

/-- Claim C2: when the store's `get` fails for the primary macaroon's id,
`Check` rewrites a not-found cause into a `VerificationError` phrased
"macaroon not found in storage", while any other storage error is surfaced as
a `Notef` wrap, which is not a `VerificationError`. -/
theorem claim_C2 (svc : Service) (get : StoreGet) (m0 : Macaroon)
    (rest : List Macaroon) (checker : FirstPartyChecker) (e : GoErr)
    (hstore : svc.store = some get) (hget : get m0.id = .error e) :
    svc.Check (m0 :: rest) checker =
      (if errCause e = .notFound
       then .error (.verification (.mk (strL "macaroon not found in storage")))
       else .error (.noted e (strL "cannot get macaroon")))
    ∧ isVerificationError (.noted e (strL "cannot get macaroon")) = false := by
  refine ⟨?_, rfl⟩
  simp only [Service.Check, hstore, hget]

/-- Claim C10: `checkNeedDeclared` counts as already declared only the names
of first-party caveats whose condition parses as `declared <name> <value>`
with both parts present — its collection loop errors on a first-party
`declared` caveat lacking a value and skips everything else — so a required
name mentioned only in skipped caveats still receives an appended
`declared <name> ""` caveat. -/
theorem claim_C10 :
    (∀ cavs : List Caveat,
        buildDeclared cavs =
          if hasBadDeclared cavs then .error (.mk (strL "declared caveat has no value"))
          else .ok (declaredNamesOf cavs))
    ∧ ∀ (id : CavId) (arg : Str) (innerCavs out : List Caveat) (d : Str),
        checkNeedDeclared id arg (fun _ _ => .ok innerCavs) = .ok out →
        d ∈ needDeclaredOf arg → d ∉ declaredNamesOf innerCavs →
        DeclaredCaveat d [] ∈ out := by
  refine ⟨buildDeclared_eq, ?_⟩
  intro id arg innerCavs out d h hmem hnot
  have hout := checkNeedDeclared_ok id arg (fun _ _ => .ok innerCavs) innerCavs out rfl h
  subst hout
  refine List.mem_append_right _ ?_
  refine List.mem_map.mpr ⟨d, ?_, rfl⟩
  refine List.mem_filter.mpr ⟨hmem, ?_⟩
  simpa using hnot

/-- A store whose `get` always reports a miss. -/
def exGetNF : StoreGet := fun _ => .error .notFound

/-- A service whose store always reports a miss. -/
def exSvcNF : Service :=
  { location := strL "loc", store := some exGetNF, key := exKey
    locator := PublicKeyLocatorMap [] }

/-- Witness for C2 at concrete inputs: a not-found store miss becomes the
"macaroon not found in storage" verification error. -/
theorem claim_C2_witness :
    exSvcNF.Check [exMac] exAccept =
      (if errCause GoErr.notFound = .notFound
       then .error (.verification (.mk (strL "macaroon not found in storage")))
       else .error (.noted .notFound (strL "cannot get macaroon")))
    ∧ isVerificationError (.noted .notFound (strL "cannot get macaroon")) = false :=
  claim_C2 exSvcNF exGetNF exMac [] exAccept .notFound rfl rfl

/-- A bad first-party declared caveat carried by a third-party location: it is
skipped by `checkNeedDeclared`'s collection. -/
def exThirdPartyDeclared : Caveat :=
  { Location := strL "elsewhere", Condition := strL "declared b x" }

/-- Witness for C10 at concrete inputs: the name `b`, declared only by a
third-party caveat, still receives an appended empty declaration. -/
theorem claim_C10_witness :
    DeclaredCaveat (strL "b") [] ∈
      [exThirdPartyDeclared, DeclaredCaveat (strL "a") [], DeclaredCaveat (strL "b") []] :=
  claim_C10.2 exNeedId (strL "a,b inner") [exThirdPartyDeclared]
    [exThirdPartyDeclared, DeclaredCaveat (strL "a") [], DeclaredCaveat (strL "b") []]
    (strL "b") rfl (by decide) (by decide)

/-- Claim C1: when `Discharge` succeeds on a caveat whose condition begins
with `need-declared <csv-of-names> <inner-condition>` and the third-party
checker returned its extra caveats successfully, the returned caveats are the
checker's caveats followed by an appended `declared <name> ""` caveat for
every name of the CSV not already declared among them — names the checker did
declare are left untouched. -/
theorem claim_C1 (key : KeyPair) (checker : ThirdPartyChecker) (id : CavId)
    (rootKey : Bytes) (condition arg : Str) (cavs : List Caveat)
    (m : Macaroon) (out : List Caveat)
    (hdec : decodeCaveatId key id = .ok (rootKey, condition))
    (hparse : parseCaveat condition = (condNeedDeclared, arg))
    (hchk : checker id (arg.drop ((goIndex arg ' ').toNat + 1)) = .ok cavs)
    (hrun : Discharge key checker id = .ok (m, out)) :
    out = cavs ++
      ((needDeclaredOf arg).filter (fun d => !(declaredNamesOf cavs).contains d)).map
        (fun d => DeclaredCaveat d []) := by
  simp only [Discharge, hdec, hparse, if_true] at hrun
  cases hcnd : checkNeedDeclared id arg checker with
  | error e =>
    rw [hcnd] at hrun
    exact absurd hrun (by simp)
  | ok caveats =>
    rw [hcnd] at hrun
    simp only [Except.ok.injEq, Prod.mk.injEq] at hrun
    rw [← hrun.2]
    exact checkNeedDeclared_ok id arg checker cavs caveats hchk hcnd

/-- Witness for C1 at concrete inputs: discharging a sealed
`need-declared a,b inner` caveat with a checker that declares only `a`
appends `declared b ""` and leaves the checker's caveat untouched. -/
theorem claim_C1_witness :
    [DeclaredCaveat (strL "a") (strL "v"), DeclaredCaveat (strL "b") []] =
      [DeclaredCaveat (strL "a") (strL "v")] ++
        ((needDeclaredOf (strL "a,b inner")).filter
            (fun d => !(declaredNamesOf [DeclaredCaveat (strL "a") (strL "v")]).contains d)).map
          (fun d => DeclaredCaveat d []) :=
  claim_C1 exKey exDeclareA exNeedId exRootKey (strL "need-declared a,b inner")
    (strL "a,b inner") [DeclaredCaveat (strL "a") (strL "v")]
    (macaroonNew exRootKey exNeedId [])
    [DeclaredCaveat (strL "a") (strL "v"), DeclaredCaveat (strL "b") []]
    rfl rfl rfl rfl

/-- Claim C6: a successful `Discharge(key, checker, id)` returns the macaroon
`new(root-key, id, "")`: its id is the discharged caveat id, its location is
empty, and its tag chain is rooted at the root key recovered by box-decoding
the caveat id. -/
theorem claim_C6 (key : KeyPair) (checker : ThirdPartyChecker) (id : CavId)
    (rootKey : Bytes) (condition : Str) (m : Macaroon) (cavs : List Caveat)
    (hdec : decodeCaveatId key id = .ok (rootKey, condition))
    (hrun : Discharge key checker id = .ok (m, cavs)) :
    m = macaroonNew rootKey id [] ∧ m.id = id ∧ m.location = []
      ∧ m.tag = .hmac (.derive rootKey) id := by
  simp only [Discharge, hdec] at hrun
  have hm : m = macaroonNew rootKey id [] := by
    rcases hres : (if (parseCaveat condition).1 = condNeedDeclared
        then checkNeedDeclared id (parseCaveat condition).2 checker
        else checker id condition) with e | caveats
    · rw [hres] at hrun
      exact absurd hrun (by simp)
    · rw [hres] at hrun
      simp only [Except.ok.injEq, Prod.mk.injEq] at hrun
      exact hrun.1.symm
  subst hm
  exact ⟨rfl, rfl, rfl, rfl⟩

/-- Witness for C6 at concrete inputs. -/
theorem claim_C6_witness :
    macaroonNew exRootKey exNeedId [] = macaroonNew exRootKey exNeedId []
    ∧ (macaroonNew exRootKey exNeedId []).id = exNeedId
    ∧ (macaroonNew exRootKey exNeedId []).location = []
    ∧ (macaroonNew exRootKey exNeedId []).tag = .hmac (.derive exRootKey) exNeedId :=
  claim_C6 exKey exDeclareA exNeedId exRootKey (strL "need-declared a,b inner")
    (macaroonNew exRootKey exNeedId [])
    [DeclaredCaveat (strL "a") (strL "v"), DeclaredCaveat (strL "b") []]
    rfl rfl

/-- Claim C4: for a caveat whose location begins with `"local "`, `AddCaveat`
errors whenever the condition is non-empty, and otherwise (when the remainder
of the location parses as a public key) appends a third-party caveat at
location exactly `"local"` whose id encodes the condition `"true"` under that
key. -/
theorem claim_C4 (svc : Service) (rng : Bytes) (m : Macaroon) (cav : Caveat)
    (rest : Str) (hloc : cav.Location = strL "local " ++ rest) :
    (cav.Condition ≠ [] → ∃ e, svc.AddCaveat rng m cav = .error e)
    ∧ ∀ pk, unmarshalPublicKeyText rest = .ok pk → cav.Condition = [] →
        svc.AddCaveat rng m cav =
          .ok (m.addThirdPartyCaveat rng (encodeCaveatId (strL "true") rng pk)
            (strL "local")) := by
  have hne : cav.Location ≠ [] := by rw [hloc]; simp [strL]
  have hpre : (strL "local ").isPrefixOf cav.Location = true := by
    rw [hloc]
    exact List.isPrefixOf_iff_prefix.mpr (List.prefix_append _ _)
  have hdrop : cav.Location.drop (strL "local ").length = rest := by
    rw [hloc]
    exact List.drop_left _ _
  constructor
  · intro hcond
    simp only [Service.AddCaveat, if_neg hne, if_pos hpre, hdrop]
    cases hum : unmarshalPublicKeyText rest with
    | error e => exact ⟨_, rfl⟩
    | ok pk => exact ⟨_, by dsimp only; rw [if_pos hcond]⟩
  · intro pk hum hcond
    simp only [Service.AddCaveat, if_neg hne, if_pos hpre, hdrop, hum]
    rw [if_neg (by simp [hcond])]

/-- 43 characters — the length of the no-padding base64 text of 32 bytes. -/
def exRest43 : Str := List.replicate 43 'A'

/-- Witness for C4 at concrete inputs: an empty-condition local caveat is
appended at location `"local"` with condition `"true"` sealed to the embedded
key. -/
theorem claim_C4_witness :
    exSvc.AddCaveat exRootKey exMac
        { Location := strL "local " ++ exRest43, Condition := [] } =
      .ok (exMac.addThirdPartyCaveat exRootKey
        (encodeCaveatId (strL "true") exRootKey ⟨exRest43⟩) (strL "local")) :=
  (claim_C4 exSvc exRootKey exMac
      { Location := strL "local " ++ exRest43, Condition := [] } exRest43 rfl).2
    ⟨exRest43⟩ (by rfl) rfl

/-- Claim C7: a service built with a nil locator gets the default empty
locator, so `AddCaveat` with a non-empty location that is not a local caveat
always fails (and, the model returning the updated macaroon only on success,
the macaroon gains no caveat). -/
theorem claim_C7 (p : NewServiceParams) (genKey : KeyPair) (rng : Bytes)
    (m : Macaroon) (cav : Caveat)
    (hloc : p.Locator = none) (hne : cav.Location ≠ [])
    (hpre : (strL "local ").isPrefixOf cav.Location = false) :
    ∃ e, (NewService p genKey).AddCaveat rng m cav = .error e := by
  refine ⟨.noted .notFound (strL "cannot find public key for location"), ?_⟩
  simp only [Service.AddCaveat, if_neg hne,
    if_neg (by simp [hpre] : ¬((strL "local ").isPrefixOf cav.Location = true)),
    NewService, hloc, Option.getD_none]
  rfl

/-- Creation parameters with a nil locator. -/
def exParamsNoLoc : NewServiceParams :=
  { Location := strL "loc", Store := none, Key := some exKey, Locator := none }

/-- Witness for C7 at concrete inputs. -/
theorem claim_C7_witness :
    ∃ e, (NewService exParamsNoLoc exKey).AddCaveat exRootKey exMac
        { Location := strL "x", Condition := strL "c" } = .error e :=
  claim_C7 exParamsNoLoc exKey exRootKey exMac
    { Location := strL "x", Condition := strL "c" } rfl (by decide) (by decide)

/-! ### Lemmas about `CheckAnyM`'s loop and the declared-map overlay -/

theorem CheckAnyM_eq_loop (svc : Service) (mss : List (List Macaroon))
    (assert : AssocMap) (checker : Checker) (hne : mss ≠ []) :
    svc.CheckAnyM mss assert checker = checkAnyLoop svc assert checker mss (.mk []) := by
  cases mss with
  | nil => exact absurd rfl hne
  | cons p rest => rfl

theorem checkAnyLoop_first_ok (svc : Service) (assert : AssocMap) (checker : Checker) :
    ∀ (pre : List (List Macaroon)) (ms : List Macaroon) (post : List (List Macaroon))
      (e0 : GoErr),
      (∀ ms' ∈ pre, ∃ e, attemptSlice svc assert checker ms' = .error e) →
      attemptSlice svc assert checker ms = .ok () →
      checkAnyLoop svc assert checker (pre ++ ms :: post) e0 =
        .ok (overlay (InferDeclared ms) assert, ms) := by
  intro pre
  induction pre with
  | nil =>
    intro ms post e0 hfail hok
    simp only [List.nil_append, checkAnyLoop]
    rw [show svc.Check ms (checkersNew (overlay (InferDeclared ms) assert) checker) =
      .ok () from hok]
  | cons p pre ih =>
    intro ms post e0 hfail hok
    obtain ⟨e, he⟩ := hfail p (List.mem_cons_self ..)
    simp only [List.cons_append, checkAnyLoop]
    rw [show svc.Check p (checkersNew (overlay (InferDeclared p) assert) checker) =
      .error e from he]
    exact ih ms post e (fun ms' h => hfail ms' (List.mem_cons_of_mem _ h)) hok

theorem checkAnyLoop_all_fail (svc : Service) (assert : AssocMap) (checker : Checker) :
    ∀ (pre : List (List Macaroon)) (ms : List Macaroon) (e : GoErr) (e0 : GoErr),
      (∀ ms' ∈ pre, ∃ e', attemptSlice svc assert checker ms' = .error e') →
      attemptSlice svc assert checker ms = .error e →
      checkAnyLoop svc assert checker (pre ++ [ms]) e0 =
        .error (errgoMask e isVerificationError) := by
  intro pre
  induction pre with
  | nil =>
    intro ms e e0 hfail hlast
    simp only [List.nil_append, checkAnyLoop]
    rw [show svc.Check ms (checkersNew (overlay (InferDeclared ms) assert) checker) =
      .error e from hlast]
  | cons p pre ih =>
    intro ms e e0 hfail hlast
    obtain ⟨e', he⟩ := hfail p (List.mem_cons_self ..)
    simp only [List.cons_append, checkAnyLoop]
    rw [show svc.Check p (checkersNew (overlay (InferDeclared p) assert) checker) =
      .error e' from he]
    exact ih ms e e' (fun ms' h => hfail ms' (List.mem_cons_of_mem _ h)) hlast

theorem checkAnyLoop_ok_declared (svc : Service) (assert : AssocMap) (checker : Checker) :
    ∀ (l : List (List Macaroon)) (e0 : GoErr) (d : AssocMap) (ms : List Macaroon),
      checkAnyLoop svc assert checker l e0 = .ok (d, ms) →
      d = overlay (InferDeclared ms) assert := by
  intro l
  induction l with
  | nil =>
    intro e0 d ms h
    exact absurd h (by simp [checkAnyLoop])
  | cons p rest ih =>
    intro e0 d ms h
    simp only [checkAnyLoop] at h
    cases hc : svc.Check p (checkersNew (overlay (InferDeclared p) assert) checker) with
    | ok u =>
      rw [hc] at h
      simp only [Except.ok.injEq, Prod.mk.injEq] at h
      rw [← h.1, h.2]
    | error e =>
      rw [hc] at h
      exact ih e d ms h

theorem CheckAnyM_ok_declared (svc : Service) (mss : List (List Macaroon))
    (assert : AssocMap) (checker : Checker) (d : AssocMap) (ms : List Macaroon)
    (h : svc.CheckAnyM mss assert checker = .ok (d, ms)) :
    d = overlay (InferDeclared ms) assert := by
  cases mss with
  | nil => exact absurd h (by simp [Service.CheckAnyM])
  | cons p rest =>
    exact checkAnyLoop_ok_declared svc assert checker (p :: rest) (.mk []) d ms h

theorem lookupA_setKey_self (m : AssocMap) (k v : Str) :
    lookupA (setKey m k v) k = some v := by
  induction m with
  | nil => simp [setKey, lookupA]
  | cons p rest ih =>
    obtain ⟨k', v'⟩ := p
    unfold setKey
    by_cases h : k' = k
    · rw [if_pos h]
      simp [lookupA]
    · rw [if_neg h]
      rw [lookupA, if_neg h]
      exact ih

theorem lookupA_setKey_other (m : AssocMap) (k v a : Str) (h : k ≠ a) :
    lookupA (setKey m k v) a = lookupA m a := by
  induction m with
  | nil => simp [setKey, lookupA, if_neg h]
  | cons p rest ih =>
    obtain ⟨k', v'⟩ := p
    unfold setKey
    by_cases hk : k' = k
    · rw [if_pos hk]
      rw [lookupA, if_neg h, lookupA, hk, if_neg h]
    · rw [if_neg hk]
      rw [lookupA, lookupA]
      by_cases ha : k' = a
      · rw [if_pos ha, if_pos ha]
      · rw [if_neg ha, if_neg ha]
        exact ih

theorem lookupA_eq_none_of_not_mem (l : AssocMap) (a : Str)
    (h : a ∉ l.map Prod.fst) : lookupA l a = none := by
  induction l with
  | nil => rfl
  | cons p rest ih =>
    obtain ⟨k, v⟩ := p
    simp only [List.map_cons, List.mem_cons] at h
    push_neg at h
    rw [lookupA, if_neg (fun he => h.1 he.symm)]
    exact ih h.2

theorem lookupA_foldl_none (l : AssocMap) (a : Str) (h : lookupA l a = none) :
    ∀ m : AssocMap, lookupA (l.foldl (fun acc p => setKey acc p.1 p.2) m) a = lookupA m a := by
  induction l with
  | nil => intro m; rfl
  | cons p rest ih =>
    intro m
    obtain ⟨k, v⟩ := p
    by_cases hk : k = a
    · rw [lookupA, if_pos hk] at h
      exact absurd h (by simp)
    · rw [lookupA, if_neg hk] at h
      rw [List.foldl_cons, ih h (setKey m k v)]
      exact lookupA_setKey_other m k v a hk

/-- Writing every entry of `l` into the map `m` (as `overlay` does) makes the
lookup of any key bound in `l` return `l`'s binding, whatever `m` held. -/
theorem lookupA_foldl_some :
    ∀ (l : AssocMap) (m : AssocMap) (a w : Str), (l.map Prod.fst).Nodup →
      lookupA l a = some w →
      lookupA (l.foldl (fun acc p => setKey acc p.1 p.2) m) a = some w := by
  intro l
  induction l with
  | nil =>
    intro m a w _ ha
    exact absurd ha (by simp [lookupA])
  | cons p rest ih =>
    intro m a w hnodup ha
    obtain ⟨k, v⟩ := p
    simp only [List.map_cons, List.nodup_cons] at hnodup
    rw [List.foldl_cons]
    by_cases hk : k = a
    · subst hk
      rw [lookupA, if_pos rfl] at ha
      have hrest : lookupA rest k = none :=
        lookupA_eq_none_of_not_mem rest k hnodup.1
      rw [lookupA_foldl_none rest k hrest (setKey m k v), lookupA_setKey_self]
      exact ha
    · rw [lookupA, if_neg hk] at ha
      exact ih (setKey m k v) a w hnodup.2 ha

/-- Claim C3: `CheckAnyM` returns, for the first slice in order that passes
`Check`, that slice with its declared map and no error, independently of any
later slices; when every slice fails it returns the error of the last slice
attempted, wrapped by `errgo.Mask` so that its cause is preserved exactly when
it is a `VerificationError`. -/
theorem claim_C3 (svc : Service) (assert : AssocMap) (checker : Checker) :
    (∀ (pre : List (List Macaroon)) (ms : List Macaroon) (post : List (List Macaroon)),
        (∀ ms' ∈ pre, ∃ e, attemptSlice svc assert checker ms' = .error e) →
        attemptSlice svc assert checker ms = .ok () →
        svc.CheckAnyM (pre ++ ms :: post) assert checker =
          .ok (overlay (InferDeclared ms) assert, ms))
    ∧ (∀ (pre : List (List Macaroon)) (ms : List Macaroon) (e : GoErr),
        (∀ ms' ∈ pre, ∃ e', attemptSlice svc assert checker ms' = .error e') →
        attemptSlice svc assert checker ms = .error e →
        svc.CheckAnyM (pre ++ [ms]) assert checker =
          .error (errgoMask e isVerificationError))
    ∧ (∀ e : GoErr, isVerificationError (errCause e) = true →
        errCause (errgoMask e isVerificationError) = errCause e)
    ∧ ∀ mss : List (List Macaroon),
        svc.CheckAny mss assert checker = (svc.CheckAnyM mss assert checker).map (·.1) := by
  refine ⟨?_, ?_, ?_, fun _ => rfl⟩
  · intro pre ms post hfail hok
    rw [CheckAnyM_eq_loop svc _ assert checker (by cases pre <;> simp)]
    exact checkAnyLoop_first_ok svc assert checker pre ms post _ hfail hok
  · intro pre ms e hfail hlast
    rw [CheckAnyM_eq_loop svc _ assert checker (by cases pre <;> simp)]
    exact checkAnyLoop_all_fail svc assert checker pre ms e _ hfail hlast
  · intro e he
    simp only [errgoMask, he]
    rfl

/-- Witness for C3 at concrete inputs: with a first slice that fails (the
empty slice) and a second that passes, `CheckAnyM` returns the second slice
and its declared map. -/
theorem claim_C3_witness :
    exSvc.CheckAnyM [[], [exMac]] [] exAccept =
      .ok (overlay (InferDeclared [exMac]) [], [exMac]) :=
  (claim_C3 exSvc [] exAccept).1 [[]] [exMac] []
    (fun ms' hm => by
      rcases List.mem_singleton.mp hm with rfl
      exact ⟨_, rfl⟩)
    rfl

/-- Claim C5: every attribute in `assert` overrides any inferred value — the
declared map handed to the per-slice checker, and the declared map returned on
success, both map it to `assert`'s value. -/
theorem claim_C5 (svc : Service) (mss : List (List Macaroon)) (assert : AssocMap)
    (checker : Checker) (a w : Str)
    (hnodup : (assert.map Prod.fst).Nodup)
    (ha : lookupA assert a = some w) :
    (∀ ms, lookupA (overlay (InferDeclared ms) assert) a = some w)
    ∧ ∀ (declared : AssocMap) (ms : List Macaroon),
        svc.CheckAnyM mss assert checker = .ok (declared, ms) →
        lookupA declared a = some w := by
  constructor
  · intro ms
    exact lookupA_foldl_some assert (InferDeclared ms) a w hnodup ha
  · intro declared ms h
    rw [CheckAnyM_ok_declared svc mss assert checker declared ms h]
    exact lookupA_foldl_some assert (InferDeclared ms) a w hnodup ha

/-- Witness for C5 at concrete inputs. -/
theorem claim_C5_witness :
    lookupA (overlay (InferDeclared [exMac]) [(strL "a", strL "w")]) (strL "a") =
      some (strL "w") :=
  (claim_C5 exSvc [[exMac]] [(strL "a", strL "w")] exAccept (strL "a") (strL "w")
    (by decide) rfl).1 [exMac]

end Bakery
